import Mathlib

/-!
Verification development for the `trust_wallet_homework` Ethereum block
parser.  The definitions below are a shallow embedding of the Go source:

* `internal/core/domain/address.go`            → `Address`, `NewAddress`
* `internal/core/domain/transaction_values.go` → `TransactionHash`, `WeiValue`,
  `NewWeiValue`, `WeiValue.string`, `WeiValue.IsZero`, `WeiValue.Equals`
* `internal/core/domain/transaction.go`        → `Transaction`
* block/blocknumber definitions (domain)       → `Block`; block numbers are
  modelled as `Nat` (the Go `BlockNumber` value object carries an `int64`
  with the invariant `value ≥ 0`, enforced by `NewBlockNumber`)
* `internal/adapters/storage/memory/transaction/transaction_adapter.go`
  → `TxMap`, `Store`, `FindByAddress`
* `internal/core/application/parser_service.go`
  → `GetTransactions`, `initializeStateIfRequired`, `getScanRange`,
    `processBlock`, `scanLoop`/`scanBlockRange`, `runIterations`

Go's `*big.Int` is modelled as `Option Int` (`none` is the `nil` pointer of
the zero `WeiValue` struct).  Strings are Lean `String`s; the Go byte-level
operations (`strings.TrimSpace`, `strings.ToLower`, slicing off a `"0x"`
mark) are modelled character-wise, which agrees with the Go code on ASCII
input, and all the validated formats are ASCII-only.
-/

/-- ASCII white space, modelling the characters `strings.TrimSpace` removes
(the Unicode-only white space code points never occur in the inputs the
domain constructors accept). -/
def isSpaceGo (c : Char) : Bool :=
  c = ' ' ∨ c = '\t' ∨ c = '\n' ∨ c = '\x0b' ∨ c = '\x0c' ∨ c = '\r'

/-- Model of Go `strings.TrimSpace`: drop white space from both ends. -/
def trimGo (s : String) : String :=
  String.mk (((s.data.dropWhile isSpaceGo).reverse.dropWhile isSpaceGo).reverse)

/-- ASCII lower-casing of one character, as `strings.ToLower` acts on ASCII. -/
def charLower (c : Char) : Char :=
  if 'A' ≤ c ∧ c ≤ 'Z' then Char.ofNat (c.toNat + 32) else c

/-- Model of Go `strings.ToLower`. -/
def toLowerGo (s : String) : String :=
  String.mk (s.data.map charLower)

/-- The character class `[0-9a-fA-F]` of the validation regexes. -/
def isHexDigitGo (c : Char) : Bool :=
  ('0' ≤ c ∧ c ≤ '9') ∨ ('a' ≤ c ∧ c ≤ 'f') ∨ ('A' ≤ c ∧ c ≤ 'F')

/-- The regex `^0x[0-9a-fA-F]{40}$` of `address.go`. -/
def ethAddressMatch (s : String) : Bool :=
  match s.data with
  | '0' :: 'x' :: rest => rest.length = 40 && rest.all isHexDigitGo
  | _ => false

/-- The regex `^0x[0-9a-fA-F]{64}$` of `transaction_values.go`. -/
def ethTxHashMatch (s : String) : Bool :=
  match s.data with
  | '0' :: 'x' :: rest => rest.length = 64 && rest.all isHexDigitGo
  | _ => false

/-- Domain `Address` value object: a validated, lower-cased textual form.
The zero value of the Go struct has `value == ""`. -/
structure Address where
  value : String
deriving DecidableEq

/-- `Address.String()` of `address.go`. -/
def Address.string (a : Address) : String := a.value

/-- `Address.IsZero()` of `address.go`: the struct zero value (empty text). -/
def Address.IsZero (a : Address) : Bool := a.value = ""

/-- `NewAddress` of `address.go`: trim, lower-case, then match the regex. -/
def NewAddress (addr : String) : Option Address :=
  let cleanAddr := toLowerGo (trimGo addr)
  if ethAddressMatch cleanAddr then some ⟨cleanAddr⟩ else none

/-- Domain `TransactionHash` value object of `transaction_values.go`. -/
structure TransactionHash where
  value : String
deriving DecidableEq

/-- `TransactionHash.String()`. -/
def TransactionHash.string (h : TransactionHash) : String := h.value

/-- Digit value used by `big.Int.SetString`; `99` marks a non-digit. -/
def digitValue (c : Char) : Nat :=
  if '0' ≤ c ∧ c ≤ '9' then c.toNat - '0'.toNat
  else if 'a' ≤ c ∧ c ≤ 'f' then c.toNat - 'a'.toNat + 10
  else if 'A' ≤ c ∧ c ≤ 'F' then c.toNat - 'A'.toNat + 10
  else 99

/-- Whether `c` is a digit of the given base (`10` or `16` here). -/
def isDigitInBase (base : Nat) (c : Char) : Bool := digitValue c < base

/-- Parse an unsigned digit string in the given base; `none` when empty or
when any character is not a digit of the base (as `big.Int.SetString`
requires the whole string to be consumed). -/
def parseNatDigits (base : Nat) (cs : List Char) : Option Nat :=
  if cs = [] then none
  else
    cs.foldl
      (fun acc c =>
        match acc with
        | none => none
        | some n => if isDigitInBase base c then some (n * base + digitValue c) else none)
      (some 0)

/-- Model of Go `big.Int.SetString(s, base)` for an explicit base `10` or
`16`: an optional `+`/`-` sign followed by at least one digit (no base
marks and no underscores are accepted when the base is explicit). -/
def setStringGo (s : String) (base : Nat) : Option Int :=
  match s.data with
  | '+' :: rest => Option.map (fun n => (n : Int)) (parseNatDigits base rest)
  | '-' :: rest => Option.map (fun n => -(n : Int)) (parseNatDigits base rest)
  | cs => Option.map (fun n => (n : Int)) (parseNatDigits base cs)

/-- Whether the (already trimmed) string carries a `0x`/`0X` mark, as tested
by the two `strings.HasPrefix` calls in `NewWeiValue`. -/
def hasHexMark (s : String) : Bool :=
  match s.data with
  | c0 :: c1 :: _ => c0 = '0' ∧ (c1 = 'x' ∨ c1 = 'X')
  | _ => false

/-- The slice `trimmedStr[2:]` taken after the `0x` mark. -/
def dropHexMark (s : String) : String := String.mk (s.data.drop 2)

/-- Domain `WeiValue` of `transaction_values.go`.  The Go struct holds a
`*big.Int`; `none` models the `nil` pointer of the zero struct. -/
structure WeiValue where
  value : Option Int
deriving DecidableEq

/-- `NewWeiValue` of `transaction_values.go`: trim; reject empty; on a
`0x`/`0X` mark reject length two and parse the rest as base 16, otherwise
parse as base 10. -/
def NewWeiValue (s : String) : Option WeiValue :=
  let trimmedStr := trimGo s
  if trimmedStr = "" then none
  else
    if hasHexMark trimmedStr then
      if trimmedStr.data.length = 2 then none
      else Option.map (fun v => WeiValue.mk (some v)) (setStringGo (dropHexMark trimmedStr) 16)
    else Option.map (fun v => WeiValue.mk (some v)) (setStringGo trimmedStr 10)

/-- One lower-case hex digit, as produced by `big.Int.Text(16)`. -/
def hexDigitChar (d : Nat) : Char :=
  if d < 10 then Char.ofNat ('0'.toNat + d) else Char.ofNat ('a'.toNat + d - 10)

/-- Fuel-driven hex digit emitter (most significant digit first). -/
def natToHexCore : Nat → Nat → List Char
  | 0, _ => []
  | fuel + 1, n => if n = 0 then [] else natToHexCore fuel (n / 16) ++ [hexDigitChar (n % 16)]

/-- Model of `big.Int.Text(16)` on a non-negative value: lower-case hex
digits, `"0"` for zero. -/
def natToHex (n : Nat) : String :=
  if n = 0 then "0" else String.mk (natToHexCore (n + 1) n)

/-- Model of `big.Int.Text(16)` including the `-` sign of negative values. -/
def intHexText (v : Int) : String :=
  if v < 0 then "-" ++ natToHex v.natAbs else natToHex v.natAbs

/-- `WeiValue.String()`: `"0x0"` for the `nil` pointer, otherwise
`"0x" + value.Text(16)`. -/
def WeiValue.string (wv : WeiValue) : String :=
  match wv.value with
  | none => "0x0"
  | some v => "0x" ++ intHexText v

/-- `WeiValue.IsZero()`: `nil` counts as zero, otherwise `Sign() == 0`. -/
def WeiValue.IsZero (wv : WeiValue) : Bool :=
  match wv.value with
  | none => true
  | some v => v = 0

/-- `WeiValue.Equals()`: two `nil`s are equal, `nil` differs from any
non-`nil`, otherwise `Cmp == 0`. -/
def WeiValue.Equals (wv other : WeiValue) : Bool :=
  match wv.value, other.value with
  | none, none => true
  | none, some _ => false
  | some _, none => false
  | some a, some b => a = b

/-- Domain `Transaction` of `transaction.go`.  The block number field holds
the non-negative `int64` of the `BlockNumber` value object, modelled as
`Nat`. -/
structure Transaction where
  Hash : TransactionHash
  From : Address
  To : Address
  Value : WeiValue
  BlockNumber : Nat
  Timestamp : Nat
deriving DecidableEq

/-- Domain `Block` of `block.go` (the declarations file paired with
`BlockNumber`): number, hash, timestamp, ordered transactions. -/
structure Block where
  Number : Nat
  Hash : String
  Timestamp : Nat
  Transactions : List Transaction
deriving DecidableEq

/-- The state of `InMemoryTransactionRepo` (`transaction_adapter.go`): the
`map[string][]domain.Transaction`, modelled as a total function that is
`[]` at absent keys (a Go map read of a missing key yields the zero slice
and `FindByAddress` turns that into `[]` explicitly). -/
abbrev TxMap := String → List Transaction

/-- The empty transaction store created by `NewInMemoryTransactionRepo`. -/
def emptyTxMap : TxMap := fun _ => []

/-- `InMemoryTransactionRepo.Store` (`transaction_adapter.go` lines 29-43):
append under `from`; additionally under `to` when `to`'s text is non-empty,
`to` is not the zero Address, and `to` differs from `from`.  The memory
adapter never returns an error. -/
def Store (txs : TxMap) (tx : Transaction) : TxMap :=
  let fromAddr := tx.From.string
  let m1 : TxMap := fun a => if a = fromAddr then txs a ++ [tx] else txs a
  let toAddr := tx.To.string
  if toAddr ≠ "" ∧ tx.To.IsZero = false then
    if fromAddr ≠ toAddr then
      fun a => if a = toAddr then m1 a ++ [tx] else m1 a
    else m1
  else m1

/-- `InMemoryTransactionRepo.FindByAddress` (lines 46-63): look the address
text up, returning `[]` when absent, otherwise a copy of the slice (a copy
is the identity in this value model).  Never an error. -/
def FindByAddress (txs : TxMap) (address : Address) : List Transaction :=
  txs address.string

/-- The public API transaction DTO (`pkg/ethparser`). -/
structure APITransaction where
  Hash : String
  From : String
  To : String
  Value : String
  BlockNumber : Nat
  Timestamp : Nat
deriving DecidableEq

/-- `mapDomainToAPITransaction` of `parser_service.go`. -/
def mapDomainToAPITransaction (tx : Transaction) : APITransaction :=
  { Hash := tx.Hash.string
    From := tx.From.string
    To := tx.To.string
    Value := tx.Value.string
    BlockNumber := tx.BlockNumber
    Timestamp := tx.Timestamp }

/-- `ParserServiceImpl.GetTransactions` (`parser_service.go` lines 116-138)
backed by the in-memory transaction repository: `none` is the address
validation error; on a valid address the repository lookup never fails and
the domain transactions are mapped to DTOs. -/
def GetTransactions (txs : TxMap) (addressString : String) : Option (List APITransaction) :=
  match NewAddress addressString with
  | none => none
  | some address => some ((FindByAddress txs address).map mapDomainToAPITransaction)

/-- Result of one `GetBlockWithTransactions` call as `processBlock` sees
it: a transport/fetch error, a `nil` block with no error, or a block. -/
inductive FetchResult where
  | fetchErr : FetchResult
  | noBlock : FetchResult
  | blockData : Block → FetchResult

/-- `true` exactly on the error outcome. -/
def isFetchErr : FetchResult → Bool
  | .fetchErr => true
  | _ => false

/-- The environment of one scan iteration: the service configuration value
`InitialScanBlockNumber` (an `int64`, `-1` meaning "start at tip"), the
outcome of `GetLatestBlockNumber` (`none` = error), the outcome of
`GetBlockWithTransactions` per block number, whether `FindAll` on the
address repository succeeds, the monitored address texts it returns (the
watch snapshot), and the cancellation state of the iteration context when
the loop reaches each block number. -/
structure ScanEnv where
  cfgVal : Int
  tip : Option Nat
  fetch : Nat → FetchResult
  addrsOk : Bool
  watched : List String
  cancelled : Nat → Bool

/-- The `initialScanBlock` computed by `NewParserService`: the configured
value when it is non-negative (then `NewBlockNumber` cannot fail), the
zero block otherwise. -/
def initialScanBlockOf (cfgVal : Int) : Nat :=
  if 0 ≤ cfgVal then cfgVal.toNat else 0

/-- `initializeStateIfRequired` (`parser_service.go` lines 211-246) paired
with the in-memory state store, whose `SetCurrentBlock` never fails:
an initialized cursor is returned unchanged with no write; an uninitialized
cursor is seeded from the chain tip when the configured value is `-1`
(failing when the tip fetch fails) and from `initialScanBlock` otherwise.
The result carries the current block together with the list of `SetCurrentBlock`
writes performed; `none` is the error return. -/
def initializeStateIfRequired (cfgVal : Int) (cursor0 : Option Nat) (tip : Option Nat) :
    Option (Nat × List Nat) :=
  match cursor0 with
  | some b => some (b, [])
  | none =>
    if cfgVal = -1 then
      match tip with
      | none => none
      | some t => some (t, [t])
    else some (initialScanBlockOf cfgVal, [initialScanBlockOf cfgVal])

/-- `getScanRange` (`parser_service.go` lines 249-273): `none` when the tip
fetch errors; otherwise `start = cursor + 1`, `end = tip`, and the
`scanNeeded` flag is `false` when `start > end` (the clamp `end = min end
tip` in the source is a no-op and is omitted). -/
def getScanRange (tip : Option Nat) (currentParsedBlock : Nat) : Option (Nat × Nat × Bool) :=
  match tip with
  | none => none
  | some latestBlock =>
    let start := currentParsedBlock + 1
    if latestBlock < start then some (0, 0, false)
    else some (start, latestBlock, true)

/-- A transaction is stored iff its `from` is monitored, or its `to` is not
the zero Address and is monitored (`processBlock` lines 297-306; map
membership on the snapshot is list membership of the address text). -/
def relevant (watched : List String) (tx : Transaction) : Bool :=
  watched.contains tx.From.string ||
    (!tx.To.IsZero && watched.contains tx.To.string)

/-- One step of the transaction loop of `processBlock`: store when
relevant (`txRepo.Store` never fails in the memory adapter). -/
def storeIfRelevant (watched : List String) (txs : TxMap) (tx : Transaction) : TxMap :=
  if relevant watched tx then Store txs tx else txs

/-- `processBlock` (`parser_service.go` lines 276-321): a fetch error is
returned (`none`); a `nil` block is skipped leaving the store unchanged;
otherwise every relevant transaction of the block is stored in order. -/
def processBlock (env : ScanEnv) (txs : TxMap) (blockNum : Nat) : Option TxMap :=
  match env.fetch blockNum with
  | .fetchErr => none
  | .noBlock => some txs
  | .blockData b => some (b.Transactions.foldl (storeIfRelevant env.watched) txs)

/-- The `for i := start; i <= end; i++` loop of `scanBlockRange` (lines
370-397), with `n` the number of block numbers left to visit and `last`
the running `lastSuccessfullyProcessedBlock`.  At each block the context
cancellation is observed first; a processing error or cancellation ends
the walk.  The result is the final `lastSuccessfullyProcessedBlock`
together with the transaction store. -/
def scanLoop (env : ScanEnv) (start n last : Nat) (txs : TxMap) : Nat × TxMap :=
  match n with
  | 0 => (last, txs)
  | Nat.succ m =>
    if env.cancelled start then (last, txs)
    else
      match processBlock env txs start with
      | none => (last, txs)
      | some txs2 => scanLoop env (start + 1) m start txs2

/-- The observable outcome of one or more scan iterations: the cursor store
content (`none` = still uninitialized), the transaction store, and the
ordered list of values passed to `SetCurrentBlock`. -/
structure IterResult where
  cursor : Option Nat
  txs : TxMap
  writes : List Nat

/-- `scanBlockRange` (`parser_service.go` lines 324-407), one full scan
iteration against the in-memory stores: initialize the state if required
(aborting on failure), compute the scan range (aborting on a tip fetch
error and ending quietly when no new blocks exist), load the watch
snapshot (aborting when `FindAll` fails; an empty snapshot still walks the
range), then walk the blocks and finally persist
`lastSuccessfullyProcessedBlock` — which every abort path inside the loop
persists as well before returning. -/
def scanBlockRange (env : ScanEnv) (cursor0 : Option Nat) (txs0 : TxMap) : IterResult :=
  match initializeStateIfRequired env.cfgVal cursor0 env.tip with
  | none => ⟨cursor0, txs0, []⟩
  | some (currentParsedBlock, w0) =>
    match getScanRange env.tip currentParsedBlock with
    | none => ⟨some currentParsedBlock, txs0, w0⟩
    | some (start, endBlock, scanNeeded) =>
      if scanNeeded = false then ⟨some currentParsedBlock, txs0, w0⟩
      else if env.addrsOk = false then ⟨some currentParsedBlock, txs0, w0⟩
      else
        let p := scanLoop env start (endBlock + 1 - start) currentParsedBlock txs0
        ⟨some p.1, p.2, w0 ++ [p.1]⟩

/-- A sequence of scan iterations as driven by `pollBlocks`: each iteration
re-reads the cursor store written by the previous one and runs with its
own environment (tip, fetch outcomes, snapshot, cancellation). -/
def runIterations (envs : List ScanEnv) (cursor0 : Option Nat) (txs0 : TxMap) : IterResult :=
  match envs with
  | [] => ⟨cursor0, txs0, []⟩
  | e :: rest =>
    let r := scanBlockRange e cursor0 txs0
    let rr := runIterations rest r.cursor r.txs
    ⟨rr.cursor, rr.txs, r.writes ++ rr.writes⟩

/-- Whether the loop makes it past block `i`: the iteration context is not
cancelled when the loop reaches `i` and the fetch of block `i` does not
error (a `nil` block is still a completed step — the lenient path). -/
def stepOK (env : ScanEnv) (i : Nat) : Bool :=
  !env.cancelled i && !isFetchErr (env.fetch i)

/-- Store a list of transactions in order (`Store` folded left). -/
def storeAll (txs : TxMap) (l : List Transaction) : TxMap := l.foldl Store txs

/-- The write trace `ws`, read after a store already holding `c` (`none` =
uninitialized), never writes a value below the value currently stored:
each write is at least the preceding store content. -/
def monotoneFrom : Option Nat → List Nat → Prop
  | _, [] => True
  | c, w :: ws => (∀ b, c = some b → b ≤ w) ∧ monotoneFrom (some w) ws

/-- The store content after the writes `ws` starting from content `c`. -/
def lastOr (c : Option Nat) (ws : List Nat) : Option Nat :=
  match ws with
  | [] => c
  | w :: ws2 => lastOr (some w) ws2

/-- A fixed valid address text (40 hex digits). -/
def strA : String := "0xaaaaaaaaaaaaaaaaaaaaaaaaaaaaaaaaaaaaaaaa"

/-- A second valid address text, distinct from `strA`. -/
def strB : String := "0xbbbbbbbbbbbbbbbbbbbbbbbbbbbbbbbbbbbbbbbb"

/-- A third valid address text. -/
def strC : String := "0xcccccccccccccccccccccccccccccccccccccccc"

/-- The address with text `strA`. -/
def addrA : Address := ⟨strA⟩

/-- The address with text `strB`. -/
def addrB : Address := ⟨strB⟩

/-- The address with text `strC`. -/
def addrC : Address := ⟨strC⟩

/-- A transfer from `addrA` to `addrB`. -/
def txAB : Transaction :=
  { Hash := ⟨"0xdddddddddddddddddddddddddddddddddddddddddddddddddddddddddddddddd"⟩
    From := addrA
    To := addrB
    Value := ⟨some 1⟩
    BlockNumber := 1
    Timestamp := 0 }

/-- A transfer from `addrC` to `addrB`. -/
def txCB : Transaction :=
  { Hash := ⟨"0xeeeeeeeeeeeeeeeeeeeeeeeeeeeeeeeeeeeeeeeeeeeeeeeeeeeeeeeeeeeeeeee"⟩
    From := addrC
    To := addrB
    Value := ⟨some 3⟩
    BlockNumber := 1
    Timestamp := 0 }

/-- Iteration in which only `addrA` is watched and the single new block 1
holds one transfer from `addrA` to the never-watched `addrB`. -/
def envCE : ScanEnv :=
  { cfgVal := 0
    tip := some 1
    fetch := fun j => if j = 1 then .blockData ⟨1, "h", 0, [txAB]⟩ else .noBlock
    addrsOk := true
    watched := [strA]
    cancelled := fun _ => false }

/-- Iteration over blocks 201..205 whose fetch of block 203 errors. -/
def envAbort : ScanEnv :=
  { cfgVal := 0
    tip := some 205
    fetch := fun j => if j = 203 then .fetchErr else .noBlock
    addrsOk := true
    watched := []
    cancelled := fun _ => false }

/-- Iteration over blocks 101..102 in which every block comes back `nil`. -/
def envNil : ScanEnv :=
  { cfgVal := 0
    tip := some 102
    fetch := fun _ => .noBlock
    addrsOk := true
    watched := []
    cancelled := fun _ => false }

/-- Start-at-tip configuration (`InitialScanBlockNumber = -1`) with the
chain tip at block 50. -/
def envTip : ScanEnv :=
  { cfgVal := -1
    tip := some 50
    fetch := fun _ => .noBlock
    addrsOk := true
    watched := []
    cancelled := fun _ => false }

/-- Fixed-seed configuration (`InitialScanBlockNumber = 7`). -/
def envFixed : ScanEnv :=
  { cfgVal := 7
    tip := some 3
    fetch := fun _ => .noBlock
    addrsOk := true
    watched := []
    cancelled := fun _ => false }

/-- A block holding one relevant and one irrelevant transaction when only
`addrA` is watched. -/
def blk5 : Block := ⟨5, "h", 0, [txAB, txCB]⟩

/-- Iteration whose block 5 is `blk5`, with `addrA` watched. -/
def envFilter : ScanEnv :=
  { cfgVal := 0
    tip := some 5
    fetch := fun j => if j = 5 then .blockData blk5 else .noBlock
    addrsOk := true
    watched := [strA]
    cancelled := fun _ => false }

/-- C4: `Store` records a transaction under its from-address (always, with
exactly one copy appended to that entry, so a self-transfer is listed
once, not twice), additionally under its to-address exactly when the
to-address is not the zero Address and differs from the from-address, and
touches no other entry — in particular a transaction whose `to` is the
zero Address is stored only under `from`. -/
theorem storeRecords (txs : TxMap) (tx : Transaction) (a : String) :
    Store txs tx a =
      (if a = tx.From.string then txs a ++ [tx]
       else if a = tx.To.string ∧ tx.To.IsZero = false then txs a ++ [tx]
       else txs a) ∧
    List.count tx (Store txs tx tx.From.string) = List.count tx (txs tx.From.string) + 1 := by
  constructor
  · simp only [Store]
    split_ifs <;> simp_all [Address.IsZero, Address.string]
  · simp only [Store]
    split_ifs <;> simp_all [Address.IsZero, Address.string, List.count_append]

/-- C8: a `WeiValue` built from a decimal string and one built from a hex
string that denote the same integer `n` (the decimal string carries no
`0x` mark and parses in base 10 to `n` after trimming; the hex string
carries the mark and its remainder parses in base 16 to `n`) are both
constructed successfully, compare equal under `Equals`, and serialize to
the same canonical text. -/
theorem valueRoundTrip (ds hs : String) (n : Int)
    (hdForm : hasHexMark (trimGo ds) = false)
    (hd : setStringGo (trimGo ds) 10 = some n)
    (hhForm : hasHexMark (trimGo hs) = true)
    (hh : setStringGo (dropHexMark (trimGo hs)) 16 = some n) :
    ∃ v1 v2 : WeiValue,
      NewWeiValue ds = some v1 ∧ NewWeiValue hs = some v2 ∧
      WeiValue.Equals v1 v2 = true ∧ WeiValue.string v1 = WeiValue.string v2 := by
  refine ⟨⟨some n⟩, ⟨some n⟩, ?_, ?_, by simp [WeiValue.Equals], rfl⟩
  · have hne : trimGo ds ≠ "" := by
      intro h
      rw [h] at hd
      simp [setStringGo, parseNatDigits] at hd
    simp [NewWeiValue, hne, hdForm, hd]
  · have hne : trimGo hs ≠ "" := by
      intro h
      rw [h] at hhForm
      exact absurd hhForm (by decide)
    have hlen : ¬(trimGo hs).length = 2 := by
      intro h2
      have h2d : (trimGo hs).data.length = 2 := h2
      have hdrop : (trimGo hs).data.drop 2 = [] := by
        rw [← h2d]
        exact List.drop_length _
      simp only [dropHexMark] at hh
      rw [hdrop] at hh
      simp [setStringGo, parseNatDigits] at hh
    simp [NewWeiValue, hne, hhForm, hlen, hh]

/-- C8 witness: `"26"` and `"0x1a"` both denote 26; the two constructed
values compare equal and print alike. -/
theorem valueRoundTripW :
    ∃ v1 v2 : WeiValue,
      NewWeiValue "26" = some v1 ∧ NewWeiValue "0x1a" = some v2 ∧
      WeiValue.Equals v1 v2 = true ∧ WeiValue.string v1 = WeiValue.string v2 :=
  valueRoundTrip "26" "0x1a" 26 (by decide) (by decide) (by decide) (by decide)

/-- C9: the claim that every successfully constructed `WeiValue` is
non-negative fails on the code: `NewWeiValue` hands the string to
`big.Int.SetString` without a sign check, so `"-5"` is accepted and the
constructed value is the negative integer -5. -/
theorem weiValueNegative :
    NewWeiValue "-5" = some ⟨some (-5)⟩ ∧ ((-5 : Int) < 0) := by decide

/-- C10: the zero-struct `WeiValue` (`nil` big.Int) and the value built
from `"0"` both report `IsZero` and both print as `"0x0"`, yet `Equals`
distinguishes them, so `Equals` is not extensional for the default
value. -/
theorem weiDefaultNotExtensional :
    WeiValue.IsZero ⟨none⟩ = true ∧ WeiValue.string ⟨none⟩ = "0x0" ∧
    NewWeiValue "0" = some ⟨some 0⟩ ∧ WeiValue.IsZero ⟨some 0⟩ = true ∧
    WeiValue.string ⟨some 0⟩ = "0x0" ∧ WeiValue.Equals ⟨none⟩ ⟨some 0⟩ = false := by
  decide

theorem processBlock_isErr (env : ScanEnv) (txs : TxMap) (i : Nat) :
    processBlock env txs i = none ↔ isFetchErr (env.fetch i) = true := by
  cases h : env.fetch i <;> simp [processBlock, isFetchErr, h]

theorem scanLoop_ge (env : ScanEnv) :
    ∀ (n start last : Nat) (txs : TxMap), last ≤ start →
      last ≤ (scanLoop env start n last txs).1 := by
  intro n
  induction n with
  | zero => intro start last txs h; simp [scanLoop]
  | succ m ih =>
    intro start last txs h
    simp only [scanLoop]
    by_cases hc : env.cancelled start = true
    · simp [hc]
    · simp only [Bool.not_eq_true] at hc
      simp only [hc, Bool.false_eq_true, if_false]
      cases hp : processBlock env txs start with
      | none => simp [hp]
      | some txs2 =>
        simp only [hp]
        have := ih (start + 1) start txs2 (by omega)
        omega

theorem scanLoop_complete (env : ScanEnv) :
    ∀ (n start last : Nat) (txs : TxMap), start = last + 1 →
      (∀ j, j < n → stepOK env (start + j) = true) →
      (scanLoop env start n last txs).1 = last + n := by
  intro n
  induction n with
  | zero => intro start last txs hs hok; simp [scanLoop]
  | succ m ih =>
    intro start last txs hs hok
    have h0 := hok 0 (by omega)
    simp only [stepOK, Nat.add_zero, Bool.and_eq_true, Bool.not_eq_true'] at h0
    obtain ⟨hc0, hf0⟩ := h0
    simp only [scanLoop, hc0, Bool.false_eq_true, if_false]
    cases hp : processBlock env txs start with
    | none =>
      rw [processBlock_isErr] at hp
      rw [hp] at hf0
      cases hf0
    | some txs2 =>
      simp only [hp]
      have hrec := ih (start + 1) start txs2 rfl (fun j hj => by
        have := hok (j + 1) (by omega)
        rw [show start + (j + 1) = start + 1 + j by omega] at this
        exact this)
      omega

theorem scanLoop_abortAt (env : ScanEnv) :
    ∀ (m n start last : Nat) (txs : TxMap), m < n →
      (∀ j, j < m → stepOK env (start + j) = true) →
      env.cancelled (start + m) = false →
      isFetchErr (env.fetch (start + m)) = true →
      (scanLoop env start n last txs).1 = if m = 0 then last else start + (m - 1) := by
  intro m
  induction m with
  | zero =>
    intro n start last txs hmn hok hc hf
    obtain ⟨k, rfl⟩ : ∃ k, n = k + 1 := ⟨n - 1, by omega⟩
    rw [Nat.add_zero] at hc hf
    simp only [scanLoop, hc, Bool.false_eq_true, if_false]
    have hnone : processBlock env txs start = none := (processBlock_isErr env txs start).mpr hf
    simp [hnone]
  | succ m ih =>
    intro n start last txs hmn hok hc hf
    obtain ⟨k, rfl⟩ : ∃ k, n = k + 1 := ⟨n - 1, by omega⟩
    have h0 := hok 0 (by omega)
    simp only [stepOK, Nat.add_zero, Bool.and_eq_true, Bool.not_eq_true'] at h0
    obtain ⟨hc0, hf0⟩ := h0
    simp only [scanLoop, hc0, Bool.false_eq_true, if_false]
    cases hp : processBlock env txs start with
    | none =>
      rw [processBlock_isErr] at hp
      rw [hp] at hf0
      cases hf0
    | some txs2 =>
      simp only [hp]
      have hrec := ih k (start + 1) start txs2 (by omega)
        (fun j hj => by
          have := hok (j + 1) (by omega)
          rw [show start + (j + 1) = start + 1 + j by omega] at this
          exact this)
        (by rw [show start + 1 + m = start + (m + 1) by omega]; exact hc)
        (by rw [show start + 1 + m = start + (m + 1) by omega]; exact hf)
      rw [hrec]
      by_cases hm : m = 0
      · simp [hm]
      · rw [if_neg hm, if_neg (by omega)]
        omega

theorem scanLoop_lb (env : ScanEnv) :
    ∀ (m n start last : Nat) (txs : TxMap), m ≤ n → 1 ≤ m →
      (∀ j, j < m → stepOK env (start + j) = true) →
      start + (m - 1) ≤ (scanLoop env start n last txs).1 := by
  intro m
  induction m with
  | zero => intro n start last txs h1 h2 hok; exact absurd h2 (by omega)
  | succ m ih =>
    intro n start last txs hmn h1 hok
    obtain ⟨k, rfl⟩ : ∃ k, n = k + 1 := ⟨n - 1, by omega⟩
    have h0 := hok 0 (by omega)
    simp only [stepOK, Nat.add_zero, Bool.and_eq_true, Bool.not_eq_true'] at h0
    obtain ⟨hc0, hf0⟩ := h0
    simp only [scanLoop, hc0, Bool.false_eq_true, if_false]
    cases hp : processBlock env txs start with
    | none =>
      rw [processBlock_isErr] at hp
      rw [hp] at hf0
      cases hf0
    | some txs2 =>
      simp only [hp]
      by_cases hm : m = 0
      · subst hm
        have := scanLoop_ge env k (start + 1) start txs2 (by omega)
        omega
      · have := ih k (start + 1) start txs2 (by omega) (by omega) (fun j hj => by
          have := hok (j + 1) (by omega)
          rw [show start + (j + 1) = start + 1 + j by omega] at this
          exact this)
        omega

theorem scanBlockRange_loopPath (env : ScanEnv) (c tipB : Nat) (txs0 : TxMap)
    (ht : env.tip = some tipB) (haddr : env.addrsOk = true) (hle : c + 1 ≤ tipB) :
    scanBlockRange env (some c) txs0 =
      ⟨some (scanLoop env (c + 1) (tipB + 1 - (c + 1)) c txs0).1,
       (scanLoop env (c + 1) (tipB + 1 - (c + 1)) c txs0).2,
       [(scanLoop env (c + 1) (tipB + 1 - (c + 1)) c txs0).1]⟩ := by
  simp only [scanBlockRange, initializeStateIfRequired, getScanRange, ht, haddr]
  rw [if_neg (by omega)]
  simp

/-- C2: when an iteration over `[c+1, tipB]` completes blocks `c+1 .. k`
(every step up to `k` neither cancelled nor a fetch error) and the fetch
of block `k+1 ≤ tipB` then errors with the context not cancelled, the
walk stops and the single value persisted before the iteration returns is
exactly `k` — not `tipB` and not `c`. -/
theorem abortCheckpoint (env : ScanEnv) (txs0 : TxMap) (c k tipB : Nat)
    (ht : env.tip = some tipB) (haddr : env.addrsOk = true)
    (hck : c ≤ k) (hk : k + 1 ≤ tipB)
    (hok : ∀ j, c + 1 ≤ j → j ≤ k → stepOK env j = true)
    (hcancel : env.cancelled (k + 1) = false)
    (herr : isFetchErr (env.fetch (k + 1)) = true) :
    (scanBlockRange env (some c) txs0).cursor = some k ∧
    (scanBlockRange env (some c) txs0).writes = [k] := by
  have hpath := scanBlockRange_loopPath env c tipB txs0 ht haddr (by omega)
  have habort := scanLoop_abortAt env (k - c) (tipB + 1 - (c + 1)) (c + 1) c txs0
    (by omega)
    (fun j hj => hok (c + 1 + j) (by omega) (by omega))
    (by rw [show c + 1 + (k - c) = k + 1 by omega]; exact hcancel)
    (by rw [show c + 1 + (k - c) = k + 1 by omega]; exact herr)
  have hval : (scanLoop env (c + 1) (tipB + 1 - (c + 1)) c txs0).1 = k := by
    rw [habort]
    by_cases hkc : k - c = 0
    · rw [if_pos hkc]; omega
    · rw [if_neg hkc]; omega
  refine ⟨?_, ?_⟩
  · rw [hpath]
    exact congrArg some hval
  · rw [hpath]
    show [(scanLoop env (c + 1) (tipB + 1 - (c + 1)) c txs0).1] = [k]
    rw [hval]

/-- C2 witness: scanning 201..205 with block 203 erroring checkpoints the
cursor at 202 in a single write. -/
theorem abortCheckpointW :
    (scanBlockRange envAbort (some 200) emptyTxMap).cursor = some 202 ∧
    (scanBlockRange envAbort (some 200) emptyTxMap).writes = [202] := by
  apply abortCheckpoint envAbort emptyTxMap 200 202 205 rfl rfl (by omega) (by omega)
  · intro j h1 h2
    rcases (by omega : j = 201 ∨ j = 202) with rfl | rfl <;> decide
  · decide
  · decide

/-- C6: a block `i` whose fetch returns a `nil` block without error stores
no transaction (`processBlock` leaves the store unchanged), and when
every step from `c+1` up to `i` completes, the iteration's final cursor
still advances to at least `i` — exactly `i` when `i` is the end of the
range. -/
theorem nilBlockAdvance (env : ScanEnv) (txs0 txs : TxMap) (c i tipB : Nat)
    (ht : env.tip = some tipB) (haddr : env.addrsOk = true)
    (hci : c + 1 ≤ i) (hit : i ≤ tipB)
    (hnil : env.fetch i = FetchResult.noBlock)
    (hok : ∀ j, c + 1 ≤ j → j ≤ i → stepOK env j = true) :
    processBlock env txs i = some txs ∧
    (∃ b, (scanBlockRange env (some c) txs0).cursor = some b ∧ i ≤ b) ∧
    (i = tipB → (scanBlockRange env (some c) txs0).cursor = some i) := by
  have hpath := scanBlockRange_loopPath env c tipB txs0 ht haddr (by omega)
  refine ⟨by simp [processBlock, hnil], ?_, ?_⟩
  · have hlb := scanLoop_lb env (i - c) (tipB + 1 - (c + 1)) (c + 1) c txs0
      (by omega) (by omega)
      (fun j hj => hok (c + 1 + j) (by omega) (by omega))
    refine ⟨(scanLoop env (c + 1) (tipB + 1 - (c + 1)) c txs0).1, ?_, by omega⟩
    rw [hpath]
  · intro hiT
    have hcomp := scanLoop_complete env (tipB + 1 - (c + 1)) (c + 1) c txs0 rfl
      (fun j hj => hok (c + 1 + j) (by omega) (by omega))
    have : (scanLoop env (c + 1) (tipB + 1 - (c + 1)) c txs0).1 = i := by omega
    rw [hpath]
    exact congrArg some this

/-- C6 witness: with blocks 101..102 both reported `nil`, block 102 stores
nothing and the iteration ends with the cursor advanced to 102. -/
theorem nilBlockAdvanceW :
    processBlock envNil emptyTxMap 102 = some emptyTxMap ∧
    (∃ b, (scanBlockRange envNil (some 100) emptyTxMap).cursor = some b ∧ 102 ≤ b) ∧
    (102 = 102 → (scanBlockRange envNil (some 100) emptyTxMap).cursor = some 102) :=
  nilBlockAdvance envNil emptyTxMap emptyTxMap 100 102 102 rfl rfl (by omega) (by omega) rfl
    (fun j h1 h2 => by rcases (by omega : j = 101 ∨ j = 102) with rfl | rfl <;> decide)

theorem foldl_storeIfRelevant (w : List String) :
    ∀ (l : List Transaction) (txs : TxMap),
      l.foldl (storeIfRelevant w) txs = storeAll txs (l.filter (fun tx => relevant w tx)) := by
  intro l
  induction l with
  | nil => intro txs; simp [storeAll]
  | cons hd tl ih =>
    intro txs
    by_cases hr : relevant w hd = true
    · simp [storeIfRelevant, hr, List.filter_cons, ih, storeAll]
    · simp only [Bool.not_eq_true] at hr
      simp [storeIfRelevant, hr, List.filter_cons, ih]

/-- C3: on a successfully fetched block the engine submits to the
Transaction Index exactly the transactions that are `relevant` — those
whose `from` is in the watch snapshot, or whose non-zero `to` is in the
snapshot — in block order, and nothing else (the index `Store` of the
memory adapter never fails). -/
theorem relevantFiltering (env : ScanEnv) (txs : TxMap) (i : Nat) (b : Block)
    (hf : env.fetch i = FetchResult.blockData b) :
    processBlock env txs i =
      some (storeAll txs (b.Transactions.filter (fun tx => relevant env.watched tx))) := by
  simp [processBlock, hf, foldl_storeIfRelevant]

/-- C3 witness: in a block holding a watched-sender transaction and an
unrelated one, processing stores exactly the relevant one. -/
theorem relevantFilteringW :
    processBlock envFilter emptyTxMap 5
      = some (storeAll emptyTxMap
          (blk5.Transactions.filter (fun tx => relevant envFilter.watched tx))) :=
  relevantFiltering envFilter emptyTxMap 5 blk5 rfl

/-- C5: with an uninitialized cursor the first iteration seeds the Cursor
Store before scanning any block: under the start-at-tip configuration
(`-1`) with tip `t` the whole iteration writes exactly `[t]` and leaves
the cursor at `t` (no block is scanned, matching "tip 50, no new blocks
⇒ cursor 50"); under a fixed configuration the very first persisted value
is the configured seed. -/
theorem initialSeedWrite (env : ScanEnv) (txs0 : TxMap) :
    (∀ t : Nat, env.cfgVal = -1 → env.tip = some t →
      scanBlockRange env none txs0 = ⟨some t, txs0, [t]⟩) ∧
    (env.cfgVal ≠ -1 →
      (scanBlockRange env none txs0).writes.head? = some (initialScanBlockOf env.cfgVal)) := by
  constructor
  · intro t hcfg htip
    have hinit : initializeStateIfRequired env.cfgVal none env.tip = some (t, [t]) := by
      simp [initializeStateIfRequired, hcfg, htip]
    have hrange : getScanRange env.tip t = some (0, 0, false) := by
      rw [htip]
      simp [getScanRange]
    simp [scanBlockRange, hinit, hrange]
  · intro hcfg
    have hinit : initializeStateIfRequired env.cfgVal none env.tip
        = some (initialScanBlockOf env.cfgVal, [initialScanBlockOf env.cfgVal]) := by
      simp [initializeStateIfRequired, hcfg]
    cases htip : env.tip with
    | none =>
      have hrange : getScanRange env.tip (initialScanBlockOf env.cfgVal) = none := by
        rw [htip]
        rfl
      simp [scanBlockRange, hinit, hrange]
    | some tipB =>
      by_cases hlt : tipB < initialScanBlockOf env.cfgVal + 1
      · have hrange : getScanRange env.tip (initialScanBlockOf env.cfgVal)
            = some (0, 0, false) := by
          rw [htip]
          simp [getScanRange, hlt]
        simp [scanBlockRange, hinit, hrange]
      · have hrange : getScanRange env.tip (initialScanBlockOf env.cfgVal)
            = some (initialScanBlockOf env.cfgVal + 1, tipB, true) := by
          rw [htip]
          simp [getScanRange, hlt]
        by_cases haddr : env.addrsOk = false
        · simp [scanBlockRange, hinit, hrange, haddr]
        · simp only [Bool.not_eq_false] at haddr
          simp [scanBlockRange, hinit, hrange, haddr]

/-- C5 witness: tip configuration with chain tip 50 ends the first
iteration with cursor 50 and the single write 50; the fixed configuration
7 writes 7 first. -/
theorem initialSeedWriteW :
    scanBlockRange envTip none emptyTxMap = ⟨some 50, emptyTxMap, [50]⟩ ∧
    (scanBlockRange envFixed none emptyTxMap).writes.head? = some 7 := by
  constructor
  · exact (initialSeedWrite envTip emptyTxMap).1 50 rfl rfl
  · have h := (initialSeedWrite envFixed emptyTxMap).2 (by decide)
    simpa using h

theorem monotoneFrom_append :
    ∀ (ws1 : List Nat) (c : Option Nat) (ws2 : List Nat),
      monotoneFrom c ws1 → monotoneFrom (lastOr c ws1) ws2 → monotoneFrom c (ws1 ++ ws2) := by
  intro ws1
  induction ws1 with
  | nil => intro c ws2 _ h2; simpa [lastOr] using h2
  | cons w tl ih =>
    intro c ws2 h1 h2
    obtain ⟨ha, hb⟩ := h1
    exact ⟨ha, ih (some w) ws2 hb h2⟩

theorem scan_iter_props (env : ScanEnv) (cursor0 : Option Nat) (txs0 : TxMap) :
    (scanBlockRange env cursor0 txs0).cursor
      = lastOr cursor0 (scanBlockRange env cursor0 txs0).writes ∧
    monotoneFrom cursor0 (scanBlockRange env cursor0 txs0).writes := by
  cases cursor0 with
  | some b =>
    have hinit : initializeStateIfRequired env.cfgVal (some b) env.tip = some (b, []) := rfl
    cases htip : env.tip with
    | none =>
      have hrange : getScanRange env.tip b = none := by rw [htip]; rfl
      simp [scanBlockRange, hinit, hrange, lastOr, monotoneFrom]
    | some tipB =>
      by_cases hlt : tipB < b + 1
      · have hrange : getScanRange env.tip b = some (0, 0, false) := by
          rw [htip]; simp [getScanRange, hlt]
        simp [scanBlockRange, hinit, hrange, lastOr, monotoneFrom]
      · have hrange : getScanRange env.tip b = some (b + 1, tipB, true) := by
          rw [htip]; simp [getScanRange, hlt]
        by_cases haddr : env.addrsOk = false
        · simp [scanBlockRange, hinit, hrange, haddr, lastOr, monotoneFrom]
        · simp only [Bool.not_eq_false] at haddr
          have hge := scanLoop_ge env (tipB + 1 - (b + 1)) (b + 1) b txs0 (by omega)
          simp only [scanBlockRange, hinit, hrange, haddr]
          refine ⟨by simp [lastOr], ?_, trivial⟩
          intro b0 hb0
          injection hb0 with hb0
          omega
  | none =>
    by_cases hcfg : env.cfgVal = -1
    · cases htip : env.tip with
      | none =>
        have hinit : initializeStateIfRequired env.cfgVal none env.tip = none := by
          simp [initializeStateIfRequired, hcfg, htip]
        simp [scanBlockRange, hinit, lastOr, monotoneFrom]
      | some t =>
        have hinit : initializeStateIfRequired env.cfgVal none env.tip = some (t, [t]) := by
          simp [initializeStateIfRequired, hcfg, htip]
        have hrange : getScanRange env.tip t = some (0, 0, false) := by
          rw [htip]; simp [getScanRange]
        simp [scanBlockRange, hinit, hrange, lastOr, monotoneFrom]
    · have hinit : initializeStateIfRequired env.cfgVal none env.tip
          = some (initialScanBlockOf env.cfgVal, [initialScanBlockOf env.cfgVal]) := by
        simp [initializeStateIfRequired, hcfg]
      cases htip : env.tip with
      | none =>
        have hrange : getScanRange env.tip (initialScanBlockOf env.cfgVal) = none := by
          rw [htip]; rfl
        simp [scanBlockRange, hinit, hrange, lastOr, monotoneFrom]
      | some tipB =>
        by_cases hlt : tipB < initialScanBlockOf env.cfgVal + 1
        · have hrange : getScanRange env.tip (initialScanBlockOf env.cfgVal)
              = some (0, 0, false) := by
            rw [htip]; simp [getScanRange, hlt]
          simp [scanBlockRange, hinit, hrange, lastOr, monotoneFrom]
        · have hrange : getScanRange env.tip (initialScanBlockOf env.cfgVal)
              = some (initialScanBlockOf env.cfgVal + 1, tipB, true) := by
            rw [htip]; simp [getScanRange, hlt]
          by_cases haddr : env.addrsOk = false
          · simp [scanBlockRange, hinit, hrange, haddr, lastOr, monotoneFrom]
          · simp only [Bool.not_eq_false] at haddr
            have hge := scanLoop_ge env (tipB + 1 - (initialScanBlockOf env.cfgVal + 1))
              (initialScanBlockOf env.cfgVal + 1) (initialScanBlockOf env.cfgVal) txs0 (by omega)
            simp only [scanBlockRange, hinit, hrange, haddr]
            refine ⟨by simp [lastOr], ?_, ?_, trivial⟩
            · intro b0 hb0
              cases hb0
            · intro b0 hb0
              injection hb0 with hb0
              omega

/-- C1: over any sequence of scan iterations — each with its own tip,
fetch outcomes, watch snapshot, cancellation behaviour and abort paths —
the sequence of values the engine passes to the Cursor Store's
`SetCurrentBlock` is non-decreasing: no write ever carries a value lower
than the one currently stored. -/
theorem cursorWritesMonotone (envs : List ScanEnv) :
    ∀ (cursor0 : Option Nat) (txs0 : TxMap),
      monotoneFrom cursor0 (runIterations envs cursor0 txs0).writes := by
  induction envs with
  | nil => intro c t; simp [runIterations, monotoneFrom]
  | cons e rest ih =>
    intro c t
    simp only [runIterations]
    have h := scan_iter_props e c t
    refine monotoneFrom_append _ _ _ h.2 ?_
    rw [← h.1]
    exact ih _ _

/-- C7 (amended): a query for a syntactically valid address whose index
entry is empty returns the empty sequence and no error. -/
theorem getTransactionsEmptyNoError (txs : TxMap) (s : String) (a : Address)
    (hv : NewAddress s = some a) (he : txs a.string = []) :
    GetTransactions txs s = some [] := by
  simp [GetTransactions, hv, FindByAddress, he]

/-- C7 amended-claim witness: a valid address against the empty index
yields the empty sequence without error. -/
theorem getTransactionsEmptyNoErrorW :
    GetTransactions emptyTxMap strA = some [] :=
  getTransactionsEmptyNoError emptyTxMap strA addrA (by decide) rfl

/-- C7 counterexample: address `addrB` is syntactically valid and never in
the watch set, yet after one iteration in which watched `addrA` sends it
a transfer the query for `addrB` succeeds with a non-empty sequence —
refuting "never watched implies empty result". -/
theorem unwatchedNonempty :
    envCE.watched.contains (Address.string addrB) = false ∧
    NewAddress strB = some addrB ∧
    GetTransactions (scanBlockRange envCE (some 0) emptyTxMap).txs strB
      = some [mapDomainToAPITransaction txAB] ∧
    GetTransactions (scanBlockRange envCE (some 0) emptyTxMap).txs strB ≠ some [] := by
  decide
